import Mathlib

/-!
Shallow embedding of `src/main.py` (the Baidu-OCR chat-plugin).

The plugin is sequential request/response orchestration; every outside
effect (HTTP calls, filesystem tests, exceptions raised by the transport)
is passed in as an explicit oracle value, and the mutable plugin object
(`self.access_token`, `self.token_expire_time`) is threaded as explicit
state.  Timestamps (`time.time()`) are modelled as integers; the image
bytes themselves never influence any return value of the plugin, so the
request bodies (base64 payload, form fields) are not materialised.
-/

/-- Python truthiness for an optional string (`None` and `""` are falsy).
Used for `if self.access_token and ...` and `if not token:`. -/
def pyTruthy : Option String → Bool
  | none => false
  | some s => s ≠ ""

/-- Python truthiness of a plain string (`""` is falsy). -/
def strTruthy (s : String) : Bool := s ≠ ""

/-- The ASCII characters matched by Python's `\s` and stripped by
`str.strip()` (space, tab, newline, carriage return, vertical tab,
form feed).  The repository only ever feeds ASCII separators into the
normalisation pipeline. -/
def isPySpace (c : Char) : Bool :=
  c = ' ' || c = '\t' || c = '\n' || c = '\r' || c = '\x0b' || c = '\x0c'

/-- `str.strip()` on a character list: drop whitespace from both ends. -/
def pyStripL (cs : List Char) : List Char :=
  ((cs.dropWhile isPySpace).reverse.dropWhile isPySpace).reverse

/-- `text.strip()` (line 159 and line 205 of `main.py`). -/
def pyStrip (s : String) : String := ⟨pyStripL s.data⟩

/-- Matching the tail `\s*\n` of the pattern `\n\s*\n` (line 158),
greedily with backtracking, against the characters that follow an
initial `'\n'`: returns the characters after the last `'\n'` inside the
maximal whitespace prefix, or `none` when that prefix holds no `'\n'`
(so the pattern does not match here). -/
def matchTail : List Char → Option (List Char)
  | [] => none
  | c :: cs =>
    if c = '\n' then
      match matchTail cs with
      | some rest => some rest
      | none => some cs
    else if isPySpace c then matchTail cs
    else none

theorem matchTail_length_lt : ∀ cs rest, matchTail cs = some rest → rest.length < cs.length := by
  intro cs
  induction cs with
  | nil => intro rest h; simp [matchTail] at h
  | cons c cs ih =>
    intro rest h
    simp only [matchTail] at h
    by_cases hc : c = '\n'
    · simp only [hc, if_pos rfl] at h
      cases hmt : matchTail cs with
      | some r =>
        rw [hmt] at h
        cases h
        exact Nat.lt_trans (ih _ hmt) (Nat.lt_succ_self _)
      | none =>
        rw [hmt] at h
        cases h
        exact Nat.lt_succ_self _
    · simp only [if_neg hc] at h
      by_cases hs : isPySpace c = true
      · simp only [hs, if_pos rfl] at h
        exact Nat.lt_trans (ih _ h) (Nat.lt_succ_self _)
      · simp only [hs, Bool.false_eq_true, if_false] at h
        exact absurd h (by simp)

/-- `re.sub(r'\n\s*\n', '\n', text)` (line 158): left-to-right,
non-overlapping substitution of every match of `\n\s*\n` by `"\n"`. -/
def reSubAux : List Char → List Char
  | [] => []
  | c :: cs =>
    if c = '\n' then
      match h : matchTail cs with
      | some rest => '\n' :: reSubAux rest
      | none => c :: reSubAux cs
    else c :: reSubAux cs
termination_by cs => cs.length
decreasing_by
  · exact Nat.lt_trans (matchTail_length_lt cs rest h) (Nat.lt_succ_self _)
  · exact Nat.lt_succ_self _
  · exact Nat.lt_succ_self _

/-- `re.sub(r'\n\s*\n', '\n', text)` on strings. -/
def reSubBlank (s : String) : String := ⟨reSubAux s.data⟩

/-- The whole success-path normalisation of `_perform_ocr`
(lines 157-159): join is applied by the caller, then blank-run
collapsing, then strip. -/
def normalizeText (s : String) : String := pyStrip (reSubBlank s)

/-- The mutable plugin object: configuration read once in `__init__`
plus the token cache (`self.access_token`, `self.token_expire_time`).
`token_url` / `ocr_url` only name the endpoints contacted and never
influence a return value, so they are not carried. -/
structure OCRPlugin where
  api_key : String
  secret_key : String
  access_token : Option String
  token_expire_time : Int
  temp_dir : String
deriving Repr, DecidableEq

/-- JSON body of a token-endpoint response, restricted to the fields the
code reads: `access_token`, `expires_in`, `error_description`.  A `none`
field models the key being absent. -/
structure TokenJson where
  access_token : Option String
  expires_in : Option Int
  error_description : Option String
deriving Repr, DecidableEq

/-- Outcome of the token-exchange POST: either an exception somewhere in
the request/JSON decoding (caught at line 71), or a decoded JSON body. -/
inductive TokenNet where
  | exn
  | ok (j : TokenJson)
deriving Repr, DecidableEq

/-- `get_access_token` (lines 43-73).  Returns the Python return value
(`None` or a token string), the updated plugin state, and whether an
outbound network call was made.

Branches, in source order:
* keys unconfigured → `None`, no call (lines 45-46);
* warm cache (`self.access_token` truthy and `time.time()` strictly
  before `self.token_expire_time`) → cached value, no call (lines 48-49);
* otherwise one POST; `'access_token' in result` stores the token, and
  reading `result['expires_in']` sets the expiry to
  `now + expires_in - 300` (lines 62-66).  When `expires_in` is absent
  the `KeyError` is raised after `self.access_token` was already
  assigned and is caught at line 71, returning `None`.  A response
  without `access_token`, or an exception, returns `None` with the cache
  untouched (lines 67-73). -/
def get_access_token (st : OCRPlugin) (now : Int) (net : TokenNet) :
    Option String × OCRPlugin × Bool :=
  if st.api_key = "" || st.secret_key = "" then
    (none, st, false)
  else if pyTruthy st.access_token && decide (now < st.token_expire_time) then
    (st.access_token, st, false)
  else
    match net with
    | .exn => (none, st, true)
    | .ok j =>
      match j.access_token with
      | some tok =>
        match j.expires_in with
        | some e =>
          (some tok,
           { st with access_token := some tok, token_expire_time := now + e - 300 },
           true)
        | none =>
          (none, { st with access_token := some tok }, true)
      | none => (none, st, true)

/-- JSON body of a recognition-endpoint response, restricted to the
fields the code reads: `error_code`, `error_msg`, `words_result`.  Each
`words_result` element is reduced to its `words` field; a `none` element
models an item without a `words` key (whose lookup raises `KeyError`). -/
structure OcrJson where
  error_code : Option Int
  error_msg : Option String
  words_result : Option (List (Option String))
deriving Repr, DecidableEq

/-- Outcome of the fallible steps of `_perform_ocr` after the token is
obtained: an exception while reading the image file (lines 131-132), an
exception while POSTing or JSON-decoding (lines 147-149), or a decoded
JSON body. -/
inductive OcrNet where
  | readExn
  | httpExn
  | ok (j : OcrJson)
deriving Repr, DecidableEq

/-- The list comprehension `[words['words'] for words in
result.get('words_result', [])]` (line 156): `none` when some element
lacks the `words` key, so that the `KeyError` escapes to the handler at
line 161. -/
def extractWords : List (Option String) → Option (List String)
  | [] => some []
  | some w :: rest => (extractWords rest).map (w :: ·)
  | none :: rest => none

/-- `_perform_ocr` (lines 123-163).  Returns the text result and the
plugin state as left by the nested `get_access_token` call.  The image
bytes are read, base64-encoded and placed in the form body, but never
influence the return value, so they are not materialised; the response
is the oracle `net`.

Branches, in source order:
* token falsy → `"OCR服务认证失败"` (lines 126-128);
* any exception reading the file, POSTing, or decoding JSON is caught at
  line 161 and yields `""`;
* `'error_code' in result` → `"OCR识别失败: " ++ error_msg` with default
  `'未知错误'` (lines 151-154);
* otherwise join the `words` fields with `'\n'`, collapse `\n\s*\n`
  runs, and strip (lines 156-159). -/
def perform_ocr (st : OCRPlugin) (now : Int) (tokNet : TokenNet) (net : OcrNet) :
    String × OCRPlugin :=
  let r := get_access_token st now tokNet
  let token := r.1
  let st' := r.2.1
  if !pyTruthy token then ("OCR服务认证失败", st')
  else
    match net with
    | .readExn => ("", st')
    | .httpExn => ("", st')
    | .ok j =>
      match j.error_code with
      | some _ => ("OCR识别失败: " ++ j.error_msg.getD "未知错误", st')
      | none =>
        match extractWords (j.words_result.getD []) with
        | none => ("", st')
        | some ws => (normalizeText (String.intercalate "\n" ws), st')

/-- One segment of the triggering message: an image attachment carrying
a platform file id, or any other segment. -/
inductive MsgSeg where
  | image (file : String)
  | plain
deriving Repr, DecidableEq

/-- `isinstance(msg, Image)` (lines 86, 180). -/
def MsgSeg.isImage : MsgSeg → Bool
  | .image _ => true
  | .plain => false

/-- The `file` attribute of an image segment (lines 86, 188). -/
def MsgSeg.fileId : MsgSeg → String
  | .image f => f
  | .plain => ""

/-- Oracles for `download_image`: whether any statement in its `try`
block raises (caught at line 119), the result of
`image_obj.convert_to_file_path()` (line 94, `none` for Python `None`),
and `call_action("get_image").get("file")` (line 104). -/
structure DownloadEnv where
  exn : Bool
  convertPath : Option String
  apiFile : Option String
deriving Repr, DecidableEq

/-- `os.path.join(self.temp_dir, f"ocr_{int(time.time())}.jpg")`
(line 113), with POSIX `/` joining. -/
def mkTempPath (temp_dir : String) (now : Int) : String :=
  temp_dir ++ "/ocr_" ++ toString now ++ ".jpg"

/-- `download_image` (lines 76-121).  Returns
`(plugin temp path, original platform path)`.

Branches, in source order: any exception in the `try` block → `("", None)`
(lines 119-121); no image in the message list matches `file_id` →
`("", None)` (lines 90-91); a truthy `convert_to_file_path()` result that
exists on disk becomes the origin (lines 94-99); otherwise the
`get_image` API's `file` field becomes the origin, with `("", None)`
when that field is falsy or absent (lines 101-110); finally the bytes
are copied to a fresh temp path which is returned with the origin
(lines 113-117). -/
def download_image (st : OCRPlugin) (messages : List MsgSeg) (file_id : String)
    (env : DownloadEnv) (pathExists : String → Bool) (now : Int) :
    String × Option String :=
  if env.exn then ("", none)
  else if !(messages.any fun m => m.isImage && m.fileId = file_id) then ("", none)
  else
    let direct : Option String :=
      match env.convertPath with
      | some p => if strTruthy p && pathExists p then some p else none
      | none => none
    match direct with
    | some p => (mkTempPath st.temp_dir now, some p)
    | none =>
      match env.apiFile with
      | some p =>
        if strTruthy p then (mkTempPath st.temp_dir now, some p)
        else ("", none)
      | none => ("", none)

/-- `os.unlink` over a filesystem modelled as an existence predicate:
raises `FileNotFoundError` on a missing path, may raise `OSError`
(modelled by the oracle `unlinkFails`), otherwise removes the path. -/
def os_unlink (fs : String → Bool) (unlinkFails : String → Bool) (p : String) :
    Except String (String → Bool) :=
  if !fs p then .error "FileNotFoundError"
  else if unlinkFails p then .error "OSError"
  else .ok (fun q => if q = p then false else fs q)

/-- `cleanup_files` (lines 165-174) after the 3-second sleep: for each
path, delete it only if it is truthy and still exists; an exception from
`os.unlink` is caught at line 173 and only logged, so the remaining
paths are still processed.  Returns the final filesystem. -/
def cleanup_files (unlinkFails : String → Bool) (fs : String → Bool) :
    List String → (String → Bool)
  | [] => fs
  | p :: rest =>
    if strTruthy p && fs p then
      match os_unlink fs unlinkFails p with
      | .ok fs' => cleanup_files unlinkFails fs' rest
      | .error _ => cleanup_files unlinkFails fs rest
    else cleanup_files unlinkFails fs rest

/-- Everything the single run of `ocr_command` observes from outside:
the message segments, the download oracles, the token- and
recognition-endpoint responses, `os.path.exists`, and the clock. -/
structure CommandEnv where
  messages : List MsgSeg
  dl : DownloadEnv
  tokNet : TokenNet
  ocrNet : OcrNet
  pathExists : String → Bool
  now : Int

/-- Observable outcome of one `ocr_command` run: the replies yielded, the
path list handed to the spawned `cleanup_files` task (`none` when no
task is created, line 202), and whether control reached the
`_perform_ocr` call at line 194. -/
structure CmdOutcome where
  replies : List String
  cleanupTask : Option (List String)
  ocrInvoked : Bool

/-- `ocr_command` (lines 176-212).

Branches, in source order: no image segment → prompt for an image
(lines 182-184); `download_image` on the first image's file id, with a
falsy temp path → `"图片下载失败"` (lines 188-192); otherwise
`_perform_ocr`, the cleanup task over the paths that still exist
(lines 194-203), and the reply: the no-text message when the stripped
text is falsy, else the text prefixed with `"图片中的文字内容：\n"`
(lines 205-208). -/
def ocr_command (st : OCRPlugin) (env : CommandEnv) : CmdOutcome × OCRPlugin :=
  let images := env.messages.filter MsgSeg.isImage
  match images with
  | [] => (⟨["请发送一张包含文字的图片"], none, false⟩, st)
  | img :: _ =>
    let file_id := img.fileId
    let dl := download_image st env.messages file_id env.dl env.pathExists env.now
    let temp_path := dl.1
    let original_path := dl.2
    if !strTruthy temp_path then (⟨["图片下载失败"], none, false⟩, st)
    else
      let r := perform_ocr st env.now env.tokNet env.ocrNet
      let text := r.1
      let st' := r.2
      let files_to_delete :=
        (if strTruthy temp_path && env.pathExists temp_path then [temp_path] else [])
          ++ (match original_path with
              | some p => if strTruthy p && env.pathExists p then [p] else []
              | none => [])
      let task := if files_to_delete.isEmpty then none else some files_to_delete
      let reply :=
        if !strTruthy (pyStrip text) then "未识别到文字，请检查图片清晰度"
        else "图片中的文字内容：\n" ++ text
      (⟨[reply], task, true⟩, st')

/-! ### Supporting lemmas -/

theorem extractWords_map_some (ws : List String) :
    extractWords (ws.map some) = some ws := by
  induction ws with
  | nil => rfl
  | cons w rest ih => simp [extractWords, ih]

/-- A deleted path stays deleted: `cleanup_files` never creates a file. -/
theorem cleanup_files_not_revive (uf : String → Bool) (paths : List String) :
    ∀ (fs : String → Bool) (q : String), fs q = false →
      cleanup_files uf fs paths q = false := by
  induction paths with
  | nil => intro fs q h; simpa [cleanup_files] using h
  | cons p rest ih =>
    intro fs q h
    simp only [cleanup_files]
    by_cases hg : (strTruthy p && fs p) = true
    · rw [if_pos hg]
      cases hu : os_unlink fs uf p with
      | ok fs' =>
        apply ih
        simp only [os_unlink] at hu
        by_cases hfs : fs p = true
        · simp only [hfs, Bool.not_true, Bool.false_eq_true, if_false] at hu
          by_cases hup : uf p = true
          · simp [hup] at hu
          · simp only [hup, Bool.false_eq_true, if_false] at hu
            cases hu
            by_cases hqp : q = p <;> simp [hqp, h]
        · simp [Bool.not_eq_true] at hfs
          simp [hfs] at hu
      | error e => exact ih fs q h
    · rw [if_neg hg]
      exact ih fs q h

/-- The token-cache invariant behind the warm-cache contract: a truthy
cached token is only ever written while both keys are configured, and
the keys themselves are never written, so every state whose cache holds
a truthy token has both keys nonempty.  One step of `get_access_token`
preserves this. -/
theorem get_access_token_cache_invariant (st : OCRPlugin) (now : Int) (net : TokenNet)
    (h : pyTruthy st.access_token = true → (st.api_key ≠ "" ∧ st.secret_key ≠ "")) :
    pyTruthy (get_access_token st now net).2.1.access_token = true →
      ((get_access_token st now net).2.1.api_key ≠ "" ∧
       (get_access_token st now net).2.1.secret_key ≠ "") := by
  intro htok
  by_cases hk : (st.api_key = "" || st.secret_key = "") = true
  · simp only [get_access_token, hk, if_pos rfl] at htok ⊢
    exact h htok
  · have hk1 : st.api_key ≠ "" := by
      intro he; apply hk; simp [he]
    have hk2 : st.secret_key ≠ "" := by
      intro he; apply hk; simp [he]
    simp only [get_access_token, hk, Bool.false_eq_true, if_false]
    by_cases hw : (pyTruthy st.access_token && decide (now < st.token_expire_time)) = true
    · simp [hw]; exact ⟨hk1, hk2⟩
    · simp only [hw, Bool.false_eq_true, if_false]
      cases net with
      | exn => exact ⟨hk1, hk2⟩
      | ok j =>
        obtain ⟨a, ei, ed⟩ := j
        cases a with
        | none => exact ⟨hk1, hk2⟩
        | some tok =>
          cases ei with
          | some e => exact ⟨hk1, hk2⟩
          | none => exact ⟨hk1, hk2⟩

/-! ### Claims about the token manager -/

/-- C2: with credentials configured (an invariant of every state whose
cache holds a truthy token, see `get_access_token_cache_invariant`), a
cached truthy token together with a current time strictly before the
stored expiry makes `get_access_token` return exactly the cached value,
perform no network call, and leave the state unchanged. -/
theorem get_token_warm_cache_returns_cached (st : OCRPlugin) (now : Int) (net : TokenNet)
    (t : String)
    (hk1 : st.api_key ≠ "") (hk2 : st.secret_key ≠ "")
    (hc : st.access_token = some t) (ht : t ≠ "")
    (hw : now < st.token_expire_time) :
    get_access_token st now net = (some t, st, false) := by
  simp [get_access_token, hk1, hk2, hc, pyTruthy, ht, hw]

theorem get_token_warm_cache_witness :
    get_access_token ⟨"k", "s", some "tok", 100, "/tmp/astrbot_ocr"⟩ 50 .exn
      = (some "tok", ⟨"k", "s", some "tok", 100, "/tmp/astrbot_ocr"⟩, false) :=
  get_token_warm_cache_returns_cached _ 50 _ "tok"
    (by decide) (by decide) rfl (by decide) (by decide)

/-- C3: when the exchange actually runs (credentials configured, cache
cold) and the response carries both `access_token` and `expires_in`,
`get_access_token` caches the token, sets the expiry to
`now + expires_in - 300`, and returns the token. -/
theorem get_token_exchange_success (st : OCRPlugin) (now : Int) (j : TokenJson)
    (v : String) (e : Int)
    (hk1 : st.api_key ≠ "") (hk2 : st.secret_key ≠ "")
    (hcold : ¬(pyTruthy st.access_token = true ∧ now < st.token_expire_time))
    (hv : j.access_token = some v) (he : j.expires_in = some e) :
    get_access_token st now (.ok j) =
      (some v,
       { st with access_token := some v, token_expire_time := now + e - 300 },
       true) := by
  have hb : (pyTruthy st.access_token && decide (now < st.token_expire_time)) = false := by
    cases h1 : pyTruthy st.access_token
    · simp
    · simp only [Bool.true_and, decide_eq_false_iff_not]
      intro hlt; exact hcold ⟨h1, hlt⟩
  simp [get_access_token, hk1, hk2, hb, hv, he]

theorem get_token_exchange_success_witness :
    get_access_token ⟨"k", "s", none, 0, "/tmp/astrbot_ocr"⟩ 1000
        (.ok ⟨some "fresh", some 2592000, none⟩)
      = (some "fresh", ⟨"k", "s", some "fresh", 1000 + 2592000 - 300, "/tmp/astrbot_ocr"⟩, true) :=
  get_token_exchange_success _ 1000 _ "fresh" 2592000
    (by decide) (by decide) (by simp [pyTruthy]) rfl rfl

/-- C4: when the exchange actually runs and fails — a transport/JSON
exception, or a response without `access_token` — `get_access_token`
returns `none` and the previously cached token and expiry are left
unchanged. -/
theorem get_token_exchange_failure (st : OCRPlugin) (now : Int) (j : TokenJson)
    (hk1 : st.api_key ≠ "") (hk2 : st.secret_key ≠ "")
    (hcold : ¬(pyTruthy st.access_token = true ∧ now < st.token_expire_time))
    (hnotok : j.access_token = none) :
    get_access_token st now .exn = (none, st, true) ∧
    get_access_token st now (.ok j) = (none, st, true) := by
  have hb : (pyTruthy st.access_token && decide (now < st.token_expire_time)) = false := by
    cases h1 : pyTruthy st.access_token
    · simp
    · simp only [Bool.true_and, decide_eq_false_iff_not]
      intro hlt; exact hcold ⟨h1, hlt⟩
  constructor
  · simp [get_access_token, hk1, hk2, hb]
  · simp [get_access_token, hk1, hk2, hb, hnotok]

theorem get_token_exchange_failure_witness :
    get_access_token ⟨"k", "s", some "old", 40, "/tmp/astrbot_ocr"⟩ 50 .exn
        = (none, ⟨"k", "s", some "old", 40, "/tmp/astrbot_ocr"⟩, true) ∧
    get_access_token ⟨"k", "s", some "old", 40, "/tmp/astrbot_ocr"⟩ 50
        (.ok ⟨none, none, some "invalid_client"⟩)
        = (none, ⟨"k", "s", some "old", 40, "/tmp/astrbot_ocr"⟩, true) :=
  get_token_exchange_failure _ 50 _
    (by decide) (by decide) (by simp [pyTruthy]) rfl

/-- C9: with `api_key` or `secret_key` missing, `get_access_token`
returns `none`, performs no network call, and leaves the state
unchanged. -/
theorem get_token_not_configured (st : OCRPlugin) (now : Int) (net : TokenNet)
    (hk : st.api_key = "" ∨ st.secret_key = "") :
    get_access_token st now net = (none, st, false) := by
  rcases hk with h | h <;> simp [get_access_token, h]

theorem get_token_not_configured_witness :
    get_access_token ⟨"", "s", none, 0, "/tmp/astrbot_ocr"⟩ 50
        (.ok ⟨some "fresh", some 2592000, none⟩)
      = (none, ⟨"", "s", none, 0, "/tmp/astrbot_ocr"⟩, false) :=
  get_token_not_configured _ 50 _ (Or.inl rfl)

theorem dropWhile_ne_nil_of_mem_not {α} (p : α → Bool) (l : List α) (x : α)
    (hx : x ∈ l) (hpx : p x = false) : l.dropWhile p ≠ [] := by
  intro h
  have := List.dropWhile_eq_nil_iff.mp h x hx
  rw [hpx] at this
  exact Bool.false_ne_true this

/-- Stripping a string whose first character is not whitespace never
yields the empty string. -/
theorem pyStripL_cons_ne_nil (c : Char) (cs : List Char) (h : isPySpace c = false) :
    pyStripL (c :: cs) ≠ [] := by
  intro hnil
  unfold pyStripL at hnil
  rw [List.dropWhile_cons, h] at hnil
  simp only [Bool.false_eq_true, if_false] at hnil
  have h2 : ((c :: cs).reverse.dropWhile isPySpace) = [] := by
    cases hd : (c :: cs).reverse.dropWhile isPySpace with
    | nil => rfl
    | cons a l => rw [hd] at hnil; simp at hnil
  exact dropWhile_ne_nil_of_mem_not isPySpace (c :: cs).reverse c (by simp) h h2

/-- The provider-error sentinel is never stripped down to the empty
string, whatever `error_msg` the provider sent. -/
theorem strTruthy_pyStrip_provider_sentinel (msg : String) :
    strTruthy (pyStrip ("OCR识别失败: " ++ msg)) = true := by
  have h1 : pyStripL (("OCR识别失败: " ++ msg).data) ≠ [] := by
    rw [String.data_append]
    have he : ("OCR识别失败: ").data = 'O' :: "CR识别失败: ".data := rfl
    rw [he]
    exact pyStripL_cons_ne_nil 'O' _ (by decide)
  simp only [strTruthy, ne_eq, decide_eq_true_eq]
  intro heq
  exact h1 (congrArg String.data heq)

/-! ### The normalisation pipeline refines the spec's blank-line collapsing -/

/-- A blank line: empty or whitespace only. -/
def isBlankL (l : List Char) : Bool := l.all isPySpace

/-- Split a character list at `'\n'` separators, Python `s.split('\n')`. -/
def splitNl : List Char → List (List Char)
  | [] => [[]]
  | c :: cs =>
    if c = '\n' then [] :: splitNl cs
    else
      match splitNl cs with
      | [] => [[c]]
      | l :: ls => (c :: l) :: ls

/-- Join lines back with single `'\n'` separators. -/
def joinNl : List (List Char) → List Char
  | [] => []
  | [l] => l
  | l :: ls => l ++ '\n' :: joinNl ls

theorem splitNl_ne_nil (cs : List Char) : splitNl cs ≠ [] := by
  cases cs with
  | nil => simp [splitNl]
  | cons c cs =>
    simp only [splitNl]
    by_cases hc : c = '\n'
    · simp [hc]
    · simp only [hc, if_false]
      cases splitNl cs <;> simp

theorem joinNl_splitNl (cs : List Char) : joinNl (splitNl cs) = cs := by
  induction cs with
  | nil => rfl
  | cons c cs ih =>
    simp only [splitNl]
    by_cases hc : c = '\n'
    · rw [if_pos hc, hc]
      cases hs : splitNl cs with
      | nil => exact absurd hs (splitNl_ne_nil cs)
      | cons l ls =>
        rw [hs] at ih
        simp only [joinNl]
        rw [ih]
        rfl
    · rw [if_neg hc]
      cases hs : splitNl cs with
      | nil => exact absurd hs (splitNl_ne_nil cs)
      | cons l ls =>
        rw [hs] at ih
        cases ls with
        | nil => simp only [joinNl] at ih ⊢; rw [ih]
        | cons m ms => simp only [joinNl] at ih ⊢; rw [List.cons_append, ih]

/-- Drop the blank lines that sit strictly between two newlines: every
blank element except a final one. -/
def filterInterior : List (List Char) → List (List Char)
  | [] => []
  | [l] => [l]
  | l :: ls => if isBlankL l then filterInterior ls else l :: filterInterior ls

/-- Line-level effect of the substitution: the first line survives, and
interior blank lines are removed. -/
def resubLines : List (List Char) → List (List Char)
  | [] => []
  | l :: ls => l :: filterInterior ls

theorem matchTail_none_split : ∀ cs, matchTail cs = none →
    ∀ r0 rs, splitNl cs = r0 :: rs → rs ≠ [] → isBlankL r0 = false := by
  intro cs
  induction cs with
  | nil =>
    intro h r0 rs hs hne
    simp only [splitNl] at hs
    injection hs with h1 h2
    exact absurd h2.symm hne
  | cons c cs ih =>
    intro h r0 rs hs hne
    simp only [matchTail] at h
    by_cases hc : c = '\n'
    · rw [if_pos hc] at h
      cases hmt : matchTail cs <;> rw [hmt] at h <;> simp at h
    · rw [if_neg hc] at h
      simp only [splitNl, hc, Bool.false_eq_true, if_false] at hs
      cases hsc : splitNl cs with
      | nil => exact absurd hsc (splitNl_ne_nil cs)
      | cons l ls =>
        rw [hsc] at hs
        injection hs with h1 h2
        subst h1
        subst h2
        by_cases hw : isPySpace c = true
        · rw [if_pos hw] at h
          have hl : isBlankL l = false := ih h l ls hsc hne
          simp only [isBlankL, List.all_cons, Bool.and_eq_false_iff]
          right
          simpa [isBlankL] using hl
        · simp [isBlankL, List.all_cons, hw]

theorem matchTail_some_split : ∀ cs rest, matchTail cs = some rest →
    (∃ bs, bs ≠ [] ∧ (∀ b ∈ bs, isBlankL b = true) ∧
      splitNl cs = bs ++ splitNl rest) ∧
    (∀ r0 rs, splitNl rest = r0 :: rs → rs ≠ [] → isBlankL r0 = false) := by
  intro cs
  induction cs with
  | nil => intro rest h; simp [matchTail] at h
  | cons c cs ih =>
    intro rest h
    simp only [matchTail] at h
    by_cases hc : c = '\n'
    · rw [if_pos hc] at h
      subst hc
      cases hmt : matchTail cs with
      | some r =>
        rw [hmt] at h
        obtain rfl : r = rest := Option.some.inj h
        obtain ⟨⟨bs, hne, hblank, hsplit⟩, hrest⟩ := ih r hmt
        refine ⟨⟨[] :: bs, by simp, ?_, ?_⟩, hrest⟩
        · intro b hb
          rcases List.mem_cons.mp hb with rfl | hb'
          · rfl
          · exact hblank b hb'
        · simp only [splitNl, if_pos rfl, List.cons_append]
          simp [hsplit]
      | none =>
        rw [hmt] at h
        obtain rfl : cs = rest := Option.some.inj h
        refine ⟨⟨[[]], by simp, ?_, ?_⟩, matchTail_none_split cs hmt⟩
        · intro b hb
          simp at hb
          subst hb
          rfl
        · simp [splitNl]
    · rw [if_neg hc] at h
      by_cases hw : isPySpace c = true
      · rw [if_pos hw] at h
        obtain ⟨⟨bs, hne, hblank, hsplit⟩, hrest⟩ := ih rest h
        refine ⟨?_, hrest⟩
        cases bs with
        | nil => exact absurd rfl hne
        | cons b bs' =>
          refine ⟨(c :: b) :: bs', by simp, ?_, ?_⟩
          · intro x hx
            rcases List.mem_cons.mp hx with rfl | hx'
            · have hb := hblank b (List.mem_cons_self _ _)
              simp only [isBlankL, List.all_cons, hw, Bool.true_and]
              simpa [isBlankL] using hb
            · exact hblank x (List.mem_cons_of_mem _ hx')
          · simp only [splitNl, hc, Bool.false_eq_true, if_false]
            rw [List.cons_append] at hsplit
            rw [hsplit]
            rfl
      · rw [if_neg hw] at h
        simp at h

theorem filterInterior_cons_keep (r0 : List Char) (rs : List (List Char))
    (h : rs = [] ∨ isBlankL r0 = false) :
    filterInterior (r0 :: rs) = r0 :: filterInterior rs := by
  cases rs with
  | nil => rfl
  | cons m ms =>
    rcases h with h | h
    · exact absurd h (by simp)
    · simp only [filterInterior, h, Bool.false_eq_true, if_false]

theorem filterInterior_drop_blank_front : ∀ (bs M : List (List Char)), M ≠ [] →
    (∀ b ∈ bs, isBlankL b = true) → filterInterior (bs ++ M) = filterInterior M := by
  intro bs
  induction bs with
  | nil => intro M h1 h2; rfl
  | cons b bs' ih =>
    intro M hM hb
    cases hx : bs' ++ M with
    | nil =>
      rcases List.append_eq_nil.mp hx with ⟨h1, h2⟩
      exact absurd h2 hM
    | cons m ms =>
      show filterInterior (b :: (bs' ++ M)) = _
      rw [hx]
      simp only [filterInterior, hb b (List.mem_cons_self _ _), if_true]
      rw [← hx]
      exact ih M hM (fun x hx2 => hb x (List.mem_cons_of_mem _ hx2))

theorem joinNl_cons_cons (c : Char) (l : List Char) (ls : List (List Char)) :
    joinNl ((c :: l) :: ls) = c :: joinNl (l :: ls) := by
  cases ls <;> simp [joinNl]

theorem reSubAux_eq_lines_aux : ∀ (n : Nat) (cs : List Char), cs.length ≤ n →
    reSubAux cs = joinNl (resubLines (splitNl cs)) := by
  intro n
  induction n with
  | zero =>
    intro cs h
    have : cs = [] := List.length_eq_zero.mp (Nat.le_zero.mp h)
    subst this
    simp [reSubAux, splitNl, resubLines, filterInterior, joinNl]
  | succ n ih =>
    intro cs hlen
    cases cs with
    | nil => simp [reSubAux, splitNl, resubLines, filterInterior, joinNl]
    | cons c cs =>
      by_cases hc : c = '\n'
      · subst hc
        cases hmt : matchTail cs with
        | some rest =>
          have hstep : reSubAux ('\n' :: cs) = '\n' :: reSubAux rest := by
            simp only [reSubAux]
            split
            · split
              · rename_i r hr
                rw [hmt] at hr
                obtain rfl : rest = r := Option.some.inj hr
                rfl
              · rename_i hr
                rw [hmt] at hr
                exact absurd hr (by simp)
            · rename_i hfalse
              simp at hfalse
          obtain ⟨⟨bs, hne, hblank, hsplit⟩, hrest⟩ := matchTail_some_split cs rest hmt
          have hrlen : rest.length ≤ n :=
            Nat.le_of_lt (Nat.lt_of_lt_of_le (matchTail_length_lt cs rest hmt)
              (Nat.le_of_succ_le_succ hlen))
          have hihr := ih rest hrlen
          have hsp : splitNl ('\n' :: cs) = [] :: splitNl cs := by simp [splitNl]
          rw [hstep, hihr, hsp, hsplit]
          show _ = joinNl ([] :: filterInterior (bs ++ splitNl rest))
          rw [filterInterior_drop_blank_front bs (splitNl rest) (splitNl_ne_nil rest) hblank]
          cases hr : splitNl rest with
          | nil => exact absurd hr (splitNl_ne_nil rest)
          | cons r0 rs =>
            have hk : filterInterior (r0 :: rs) = r0 :: filterInterior rs := by
              apply filterInterior_cons_keep
              by_cases hrs : rs = []
              · exact Or.inl hrs
              · exact Or.inr (hrest r0 rs hr hrs)
            rw [hk]
            show '\n' :: joinNl (r0 :: filterInterior rs) = joinNl ([] :: r0 :: filterInterior rs)
            simp [joinNl]
        | none =>
          have hstep : reSubAux ('\n' :: cs) = '\n' :: reSubAux cs := by
            simp only [reSubAux]
            split
            · split
              · rename_i r hr
                rw [hmt] at hr
                exact absurd hr (by simp)
              · rfl
            · rename_i hfalse
              simp at hfalse
          have hihc := ih cs (Nat.le_of_succ_le_succ hlen)
          have hsp : splitNl ('\n' :: cs) = [] :: splitNl cs := by simp [splitNl]
          rw [hstep, hihc, hsp]
          cases hsc : splitNl cs with
          | nil => exact absurd hsc (splitNl_ne_nil cs)
          | cons l0 ls =>
            have hk : filterInterior (l0 :: ls) = l0 :: filterInterior ls := by
              apply filterInterior_cons_keep
              by_cases hls : ls = []
              · exact Or.inl hls
              · exact Or.inr (matchTail_none_split cs hmt l0 ls hsc hls)
            show '\n' :: joinNl (resubLines (l0 :: ls)) = joinNl ([] :: filterInterior (l0 :: ls))
            rw [hk]
            show '\n' :: joinNl (l0 :: filterInterior ls) = joinNl ([] :: l0 :: filterInterior ls)
            simp [joinNl]
      · have hstep : reSubAux (c :: cs) = c :: reSubAux cs := by
          simp [reSubAux, hc]
        have hihc := ih cs (Nat.le_of_succ_le_succ hlen)
        rw [hstep, hihc]
        cases hsc : splitNl cs with
        | nil => exact absurd hsc (splitNl_ne_nil cs)
        | cons l0 ls =>
          have hsp : splitNl (c :: cs) = (c :: l0) :: ls := by
            simp only [splitNl, hc, Bool.false_eq_true, if_false]
            rw [hsc]
          rw [hsp]
          show c :: joinNl (l0 :: filterInterior ls) = joinNl ((c :: l0) :: filterInterior ls)
          rw [joinNl_cons_cons]

/-- `re.sub(r'\n\s*\n', '\n', ·)` seen at line level: the first line is
kept and every blank line lying strictly between two newlines is
removed. -/
theorem reSubAux_eq_lines (cs : List Char) :
    reSubAux cs = joinNl (resubLines (splitNl cs)) :=
  reSubAux_eq_lines_aux cs.length cs (Nat.le_refl _)

theorem dropWhile_append_all {α} (p : α → Bool) (l1 l2 : List α) (h : l1.all p = true) :
    (l1 ++ l2).dropWhile p = l2.dropWhile p := by
  induction l1 with
  | nil => rfl
  | cons a l1 ih =>
    simp only [List.all_cons, Bool.and_eq_true] at h
    simp only [List.cons_append, List.dropWhile_cons, h.1, if_true]
    exact ih h.2

theorem dropWhile_append_ne_nil {α} (p : α → Bool) (l1 l2 : List α)
    (h : l1.dropWhile p ≠ []) :
    (l1 ++ l2).dropWhile p = l1.dropWhile p ++ l2 := by
  induction l1 with
  | nil => exact absurd rfl h
  | cons a l1 ih =>
    by_cases hp : p a = true
    · simp only [List.dropWhile_cons, hp, if_true] at h ⊢
      simp only [List.cons_append, List.dropWhile_cons, hp, if_true]
      exact ih h
    · rw [Bool.not_eq_true] at hp
      simp only [List.dropWhile_cons, hp] at h ⊢
      simp only [List.cons_append, List.dropWhile_cons, hp]
      simp

theorem pyStripL_all_ws (l : List Char) (h : l.all isPySpace = true) : pyStripL l = [] := by
  unfold pyStripL
  have h1 : l.dropWhile isPySpace = [] := by
    rw [List.dropWhile_eq_nil_iff]
    intro x hx
    exact (List.all_eq_true.mp h) x hx
  rw [h1]
  rfl

theorem pyStripL_blank_front (b t : List Char) (hb : b.all isPySpace = true) :
    pyStripL (b ++ '\n' :: t) = pyStripL t := by
  unfold pyStripL
  have h1 : (b ++ '\n' :: t).dropWhile isPySpace = t.dropWhile isPySpace := by
    have h2 : ((b ++ ['\n']) ++ t).dropWhile isPySpace = t.dropWhile isPySpace := by
      apply dropWhile_append_all
      simp only [List.all_append, hb, Bool.true_and]
      decide
    simpa [List.append_assoc] using h2
  rw [h1]

theorem pyStripL_blank_suffix (t b : List Char) (hb : b.all isPySpace = true) :
    pyStripL (t ++ '\n' :: b) = pyStripL t := by
  by_cases ht : t.dropWhile isPySpace = []
  · have h1 : ∀ x ∈ t, isPySpace x = true := List.dropWhile_eq_nil_iff.mp ht
    have hall : (t ++ '\n' :: b).all isPySpace = true := by
      rw [List.all_eq_true]
      intro x hx
      rcases List.mem_append.mp hx with hx | hx
      · exact h1 x hx
      · rcases List.mem_cons.mp hx with rfl | hx
        · decide
        · exact (List.all_eq_true.mp hb) x hx
    rw [pyStripL_all_ws _ hall]
    unfold pyStripL
    rw [ht]
    rfl
  · unfold pyStripL
    rw [dropWhile_append_ne_nil _ _ _ ht, List.reverse_append]
    rw [dropWhile_append_all]
    simp only [List.reverse_cons, List.all_append, List.all_reverse, hb]
    decide

theorem joinNl_append_single : ∀ (A : List (List Char)) (b : List Char), A ≠ [] →
    joinNl (A ++ [b]) = joinNl A ++ '\n' :: b := by
  intro A
  induction A with
  | nil => intro b h; exact absurd rfl h
  | cons a A ih =>
    intro b h
    cases A with
    | nil => simp [joinNl]
    | cons a2 A2 =>
      have hne : a2 :: A2 ≠ [] := by simp
      show a ++ '\n' :: joinNl ((a2 :: A2) ++ [b]) =
        (a ++ '\n' :: joinNl (a2 :: A2)) ++ '\n' :: b
      rw [ih b hne]
      simp

theorem filterInterior_spec : ∀ M : List (List Char),
    filterInterior M = M.filter (fun l => !isBlankL l) ∨
    ∃ b, isBlankL b = true ∧
      filterInterior M = M.filter (fun l => !isBlankL l) ++ [b] := by
  intro M
  induction M with
  | nil => exact Or.inl rfl
  | cons l M ih =>
    cases M with
    | nil =>
      by_cases hb : isBlankL l = true
      · exact Or.inr ⟨l, hb, by simp [filterInterior, List.filter, hb]⟩
      · rw [Bool.not_eq_true] at hb
        exact Or.inl (by simp [filterInterior, List.filter, hb])
    | cons m ms =>
      by_cases hb : isBlankL l = true
      · have he : filterInterior (l :: m :: ms) = filterInterior (m :: ms) := by
          simp only [filterInterior, hb, if_true]
        have hf : (l :: m :: ms).filter (fun x => !isBlankL x) =
            (m :: ms).filter (fun x => !isBlankL x) := by
          simp [List.filter, hb]
        rcases ih with h | ⟨b, hbb, h⟩
        · exact Or.inl (by rw [he, hf, h])
        · exact Or.inr ⟨b, hbb, by rw [he, hf, h]⟩
      · rw [Bool.not_eq_true] at hb
        have he : filterInterior (l :: m :: ms) = l :: filterInterior (m :: ms) := by
          simp only [filterInterior, hb, Bool.false_eq_true, if_false]
        have hf : (l :: m :: ms).filter (fun x => !isBlankL x) =
            l :: (m :: ms).filter (fun x => !isBlankL x) := by
          simp [List.filter, hb]
        rcases ih with h | ⟨b, hbb, h⟩
        · exact Or.inl (by rw [he, hf, h])
        · exact Or.inr ⟨b, hbb, by rw [he, hf, h, List.cons_append]⟩

theorem pyStripL_joinNl_blank_head (b : List Char) (A : List (List Char))
    (hb : isBlankL b = true) :
    pyStripL (joinNl (b :: A)) = pyStripL (joinNl A) := by
  cases A with
  | nil =>
    show pyStripL b = pyStripL (joinNl [])
    rw [pyStripL_all_ws b hb]
    rfl
  | cons a A =>
    show pyStripL (b ++ '\n' :: joinNl (a :: A)) = _
    exact pyStripL_blank_front b _ hb

theorem pyStripL_joinNl_blank_last (A : List (List Char)) (b : List Char)
    (hb : isBlankL b = true) :
    pyStripL (joinNl (A ++ [b])) = pyStripL (joinNl A) := by
  cases hA : A with
  | nil =>
    show pyStripL (joinNl [b]) = pyStripL (joinNl [])
    show pyStripL b = _
    rw [pyStripL_all_ws b hb]
    rfl
  | cons a A2 =>
    rw [← hA, joinNl_append_single A b (by rw [hA]; simp)]
    exact pyStripL_blank_suffix _ b hb

theorem strip_resubLines_eq_strip_filter : ∀ L : List (List Char),
    pyStripL (joinNl (resubLines L)) =
      pyStripL (joinNl (L.filter (fun l => !isBlankL l))) := by
  intro L
  cases L with
  | nil => rfl
  | cons l0 ls =>
    show pyStripL (joinNl (l0 :: filterInterior ls)) = _
    have hstep : pyStripL (joinNl (l0 :: filterInterior ls)) =
        pyStripL (joinNl (l0 :: ls.filter (fun l => !isBlankL l))) := by
      rcases filterInterior_spec ls with h | ⟨b, hbb, h⟩
      · rw [h]
      · rw [h, ← List.cons_append]
        exact pyStripL_joinNl_blank_last (l0 :: ls.filter (fun l => !isBlankL l)) b hbb
    rw [hstep]
    by_cases hb : isBlankL l0 = true
    · rw [pyStripL_joinNl_blank_head l0 _ hb]
      have : (l0 :: ls).filter (fun l => !isBlankL l) = ls.filter (fun l => !isBlankL l) := by
        simp [List.filter, hb]
      rw [this]
    · rw [Bool.not_eq_true] at hb
      have : (l0 :: ls).filter (fun l => !isBlankL l) =
          l0 :: ls.filter (fun l => !isBlankL l) := by
        simp [List.filter, hb]
      rw [this]

/-- Modelled from the spec: "concatenates the `words` field ... then
collapses any run of one-or-more blank lines into a single newline, and
trims leading/trailing whitespace" — split into lines, keep exactly the
non-blank lines, rejoin with single newlines, and strip. -/
def collapseBlankLines (s : String) : String :=
  ⟨pyStripL (joinNl ((splitNl s.data).filter (fun l => !isBlankL l)))⟩

/-- The code's normalisation pipeline implements the spec's blank-line
collapsing: for every string, `strip(re.sub(r'\n\s*\n', '\n', s))`
equals dropping the blank lines of `s` and rejoining, then stripping. -/
theorem normalizeText_eq_collapseBlankLines (s : String) :
    normalizeText s = collapseBlankLines s := by
  unfold normalizeText collapseBlankLines pyStrip reSubBlank
  apply congrArg String.mk
  show pyStripL (reSubAux s.data) = _
  rw [reSubAux_eq_lines]
  exact strip_resubLines_eq_strip_filter (splitNl s.data)

/-! ### Claims about the recognition client -/

/-- C1: with a token available, a recognition response whose
`words_result` holds `words` fields yields exactly those fields, in
order, joined with `'\n'`, with `\n\s*\n` runs collapsed to a single
`'\n'` and the ends stripped; in particular
`{words_result:[{words:"A"},{words:"B"}]}` yields `"A\nB"`, the joined
text `"A\n\n\nB"` normalizes to `"A\nB"`, and an empty `words_result`
yields `""`.  The last conjunct is the refinement backing the phrase
"collapses every run of one-or-more blank lines": the code's
`re.sub`+`strip` pipeline agrees with the spec-side `collapseBlankLines`
on every string. -/
theorem perform_ocr_success_normalizes (st : OCRPlugin) (now : Int) (tokNet : TokenNet)
    (htok : pyTruthy (get_access_token st now tokNet).1 = true) :
    (∀ (em : Option String) (ws : List String),
      (perform_ocr st now tokNet (.ok ⟨none, em, some (ws.map some)⟩)).1 =
        normalizeText (String.intercalate "\n" ws)) ∧
    (perform_ocr st now tokNet (.ok ⟨none, none, some [some "A", some "B"]⟩)).1 = "A\nB" ∧
    normalizeText "A\n\n\nB" = "A\nB" ∧
    (perform_ocr st now tokNet (.ok ⟨none, none, some []⟩)).1 = "" ∧
    (∀ t, normalizeText t = collapseBlankLines t) := by
  have hgen : ∀ (em : Option String) (ws : List String),
      (perform_ocr st now tokNet (.ok ⟨none, em, some (ws.map some)⟩)).1 =
        normalizeText (String.intercalate "\n" ws) := by
    intro em ws
    simp [perform_ocr, htok, extractWords_map_some]
  refine ⟨hgen, ?_, ?_, ?_, fun t => normalizeText_eq_collapseBlankLines t⟩
  · have h := hgen none ["A", "B"]
    simp only [List.map] at h
    rw [h]
    show normalizeText "A\nB" = "A\nB"
    simp [normalizeText, reSubBlank, reSubAux, matchTail, isPySpace, pyStrip, pyStripL]
  · simp [normalizeText, reSubBlank, reSubAux, matchTail, isPySpace, pyStrip, pyStripL]
  · have h := hgen none []
    simp only [List.map] at h
    rw [h]
    show normalizeText "" = ""
    simp [normalizeText, reSubBlank, reSubAux, pyStrip, pyStripL]

theorem perform_ocr_success_normalizes_witness :
    (perform_ocr ⟨"k", "s", some "tok", 100, "/tmp/astrbot_ocr"⟩ 50 .exn
        (.ok ⟨none, some "", some [some "A", some " ", some "B"]⟩)).1 =
      normalizeText (String.intercalate "\n" ["A", " ", "B"]) :=
  (perform_ocr_success_normalizes ⟨"k", "s", some "tok", 100, "/tmp/astrbot_ocr"⟩ 50 .exn
      (by decide)).1 (some "") ["A", " ", "B"]

/-- C6: with a token available, an exception raised while reading the
image file or while issuing/decoding the recognition request is caught
inside `_perform_ocr`, which returns the empty string; nothing
propagates to the command handler (the embedding is a total function on
these oracle outcomes). -/
theorem perform_ocr_exception_fail_soft (st : OCRPlugin) (now : Int) (tokNet : TokenNet)
    (htok : pyTruthy (get_access_token st now tokNet).1 = true) :
    (perform_ocr st now tokNet .readExn).1 = "" ∧
    (perform_ocr st now tokNet .httpExn).1 = "" := by
  constructor <;> simp [perform_ocr, htok]

theorem perform_ocr_exception_fail_soft_witness :
    (perform_ocr ⟨"k", "s", some "tok", 100, "/tmp/astrbot_ocr"⟩ 50 .exn .readExn).1 = "" ∧
    (perform_ocr ⟨"k", "s", some "tok", 100, "/tmp/astrbot_ocr"⟩ 50 .exn .httpExn).1 = "" :=
  perform_ocr_exception_fail_soft ⟨"k", "s", some "tok", 100, "/tmp/astrbot_ocr"⟩ 50 .exn
    (by decide)

/-- A path that appears in the worklist, is truthy, exists, and whose
deletion does not fail, is gone afterwards — whatever happens to the
other paths. -/
theorem cleanup_files_removes (uf : String → Bool) (ps : List String) :
    ∀ (fs : String → Bool) (q : String), q ∈ ps → strTruthy q = true →
      fs q = true → uf q = false → cleanup_files uf fs ps q = false := by
  induction ps with
  | nil => intro fs q hq ht he hf; cases hq
  | cons p rest ih =>
    intro fs q hq ht he hf
    simp only [cleanup_files]
    rcases List.mem_cons.mp hq with heq | hmem
    · subst heq
      rw [ht, he]
      simp only [Bool.and_self, if_true]
      simp only [os_unlink, he, Bool.not_true, Bool.false_eq_true, if_false, hf]
      exact cleanup_files_not_revive uf rest _ q (by simp)
    · by_cases hg : (strTruthy p && fs p) = true
      · rw [if_pos hg]
        cases hu : os_unlink fs uf p with
        | ok fs' =>
          by_cases hq2 : fs' q = true
          · exact ih fs' q hmem ht hq2 hf
          · exact cleanup_files_not_revive uf rest fs' q (by
              rw [Bool.not_eq_true] at hq2; exact hq2)
        | error e => exact ih fs q hmem ht he hf
      · rw [if_neg hg]
        exact ih fs q hmem ht he hf

/-- Closed form of a single cleanup step. -/
theorem cleanup_files_singleton (uf fs : String → Bool) (p : String) :
    cleanup_files uf fs [p] =
      if strTruthy p && fs p then
        (if uf p then fs else fun r => if r = p then false else fs r)
      else fs := by
  simp only [cleanup_files]
  by_cases h1 : (strTruthy p && fs p) = true
  · rw [if_pos h1, if_pos h1]
    have hfs : fs p = true := by
      have h2 := h1
      rw [Bool.and_eq_true] at h2
      exact h2.2
    simp only [os_unlink, hfs, Bool.not_true, Bool.false_eq_true, if_false]
    by_cases hu : uf p = true
    · rw [if_pos hu, if_pos hu]
    · rw [Bool.not_eq_true] at hu
      rw [hu]
      simp only [Bool.false_eq_true, if_false]
  · rw [if_neg h1, if_neg h1]

/-! ### Claim about the cleanup routine -/

/-- C10: the cleanup routine is total (every raising operation is behind
the existence test or the `try`/`except`): a missing path is a no-op, a
null (falsy) path is a no-op, running it twice over an already-deleted
path changes nothing, and a deletion failure on one path never prevents
the deletion of any other path in the list. -/
theorem cleanup_files_contract (uf fs : String → Bool) (p q : String) (ps : List String) :
    (fs p = false → cleanup_files uf fs [p] = fs) ∧
    (cleanup_files uf fs ("" :: ps) = cleanup_files uf fs ps) ∧
    (cleanup_files uf (cleanup_files uf fs [p]) [p] = cleanup_files uf fs [p]) ∧
    (q ∈ ps → strTruthy q = true → fs q = true → uf q = false →
      cleanup_files uf fs ps q = false) := by
  refine ⟨?_, ?_, ?_, ?_⟩
  · intro h
    simp [cleanup_files, h]
  · simp [cleanup_files, strTruthy]
  · by_cases h1 : (strTruthy p && fs p) = true
    · by_cases hu : uf p = true
      · have e1 : cleanup_files uf fs [p] = fs := by
          rw [cleanup_files_singleton, if_pos h1, if_pos hu]
        rw [e1]
        exact e1
      · rw [Bool.not_eq_true] at hu
        have e1 : cleanup_files uf fs [p] = fun r => if r = p then false else fs r := by
          rw [cleanup_files_singleton, if_pos h1, hu]
          simp only [Bool.false_eq_true, if_false]
        rw [e1]
        rw [cleanup_files_singleton]
        have hg2 : (strTruthy p && (fun r => if r = p then false else fs r) p) = false := by
          simp
        rw [hg2]
        simp only [Bool.false_eq_true, if_false]
    · have e1 : cleanup_files uf fs [p] = fs := by
        rw [cleanup_files_singleton, if_neg h1]
      rw [e1]
      exact e1
  · exact fun hq ht he hf => cleanup_files_removes uf ps fs q hq ht he hf

theorem cleanup_files_contract_witness :
    cleanup_files (fun _ => false)
        (fun s => s = "/tmp/astrbot_ocr/ocr_1.jpg" || s = "/orig.jpg")
        ["/tmp/astrbot_ocr/ocr_1.jpg", "/orig.jpg"] "/orig.jpg" = false :=
  (cleanup_files_contract (fun _ => false)
      (fun s => s = "/tmp/astrbot_ocr/ocr_1.jpg" || s = "/orig.jpg")
      "x" "/orig.jpg" ["/tmp/astrbot_ocr/ocr_1.jpg", "/orig.jpg"]).2.2.2
    (by decide) (by decide) (by decide) rfl

/-! ### Claims about the command handler -/

/-- C5: the two failures `_perform_ocr` reports explicitly — no token,
or a provider `error_code` — come back as non-empty sentinel strings
that pass the handler's `text.strip()` test, so the user-visible reply
goes through the success branch `"图片中的文字内容：\n{sentinel}"`,
never through a dedicated error reply or the no-text reply. -/
theorem sentinel_errors_surface_as_text (st : OCRPlugin) (env : CommandEnv)
    (img : MsgSeg) (imgs : List MsgSeg) (tp : String) (op : Option String)
    (himg : env.messages.filter MsgSeg.isImage = img :: imgs)
    (hdl : download_image st env.messages img.fileId env.dl env.pathExists env.now = (tp, op))
    (htp : strTruthy tp = true) :
    (pyTruthy (get_access_token st env.now env.tokNet).1 = false →
      (perform_ocr st env.now env.tokNet env.ocrNet).1 = "OCR服务认证失败" ∧
      (ocr_command st env).1.replies = ["图片中的文字内容：\n" ++ "OCR服务认证失败"]) ∧
    (∀ (j : OcrJson) (c : Int),
      pyTruthy (get_access_token st env.now env.tokNet).1 = true →
      env.ocrNet = .ok j → j.error_code = some c →
      (perform_ocr st env.now env.tokNet env.ocrNet).1 =
        "OCR识别失败: " ++ j.error_msg.getD "未知错误" ∧
      (ocr_command st env).1.replies =
        ["图片中的文字内容：\n" ++ ("OCR识别失败: " ++ j.error_msg.getD "未知错误")]) := by
  constructor
  · intro htok
    have hperf : (perform_ocr st env.now env.tokNet env.ocrNet).1 = "OCR服务认证失败" := by
      simp [perform_ocr, htok]
    refine ⟨hperf, ?_⟩
    have hs : strTruthy (pyStrip "OCR服务认证失败") = true := by decide
    simp [ocr_command, himg, hdl, htp, hperf, hs]
  · intro j c htok hnet hec
    have hperf : (perform_ocr st env.now env.tokNet env.ocrNet).1 =
        "OCR识别失败: " ++ j.error_msg.getD "未知错误" := by
      simp [perform_ocr, htok, hnet, hec]
    refine ⟨hperf, ?_⟩
    simp [ocr_command, himg, hdl, htp, hperf, strTruthy_pyStrip_provider_sentinel]

theorem sentinel_errors_surface_as_text_witness :
    (perform_ocr ⟨"k", "s", some "tok", 100, "/tmp/astrbot_ocr"⟩ 50 .exn
        (.ok ⟨some 17, some "Open api daily request limit reached", some []⟩)).1 =
      "OCR识别失败: " ++
        (some "Open api daily request limit reached" : Option String).getD "未知错误" ∧
    (ocr_command ⟨"k", "s", some "tok", 100, "/tmp/astrbot_ocr"⟩
        ⟨[.image "f1"], ⟨false, some "/orig.jpg", none⟩, .exn,
         .ok ⟨some 17, some "Open api daily request limit reached", some []⟩,
         fun _ => true, 50⟩).1.replies =
      ["图片中的文字内容：\n" ++
        ("OCR识别失败: " ++
          (some "Open api daily request limit reached" : Option String).getD "未知错误")] :=
  (sentinel_errors_surface_as_text ⟨"k", "s", some "tok", 100, "/tmp/astrbot_ocr"⟩
      ⟨[.image "f1"], ⟨false, some "/orig.jpg", none⟩, .exn,
       .ok ⟨some 17, some "Open api daily request limit reached", some []⟩,
       fun _ => true, 50⟩
      (.image "f1") [] "/tmp/astrbot_ocr/ocr_50.jpg" (some "/orig.jpg")
      (by decide) (by decide) (by decide)).2
    ⟨some 17, some "Open api daily request limit reached", some []⟩ 17
    (by decide) rfl rfl

/-- C7: on a recognition response with an `error_code`, the single reply
contains the provider's `error_msg`, and the cleanup task is still
scheduled over every artifact path that exists — and the scheduled path
list is the same whatever the recognition outcome was. -/
theorem provider_error_reply_and_cleanup (st : OCRPlugin) (env : CommandEnv)
    (img : MsgSeg) (imgs : List MsgSeg) (tp : String) (op : Option String)
    (j : OcrJson) (c : Int) (m : String)
    (himg : env.messages.filter MsgSeg.isImage = img :: imgs)
    (hdl : download_image st env.messages img.fileId env.dl env.pathExists env.now = (tp, op))
    (htp : strTruthy tp = true)
    (htok : pyTruthy (get_access_token st env.now env.tokNet).1 = true)
    (hnet : env.ocrNet = .ok j) (hec : j.error_code = some c) (hem : j.error_msg = some m)
    (hte : env.pathExists tp = true) :
    (ocr_command st env).1.replies = ["图片中的文字内容：\n" ++ ("OCR识别失败: " ++ m)] ∧
    (∃ ps, (ocr_command st env).1.cleanupTask = some ps ∧ tp ∈ ps ∧
      ∀ p, op = some p → strTruthy p = true → env.pathExists p = true → p ∈ ps) ∧
    (∀ net2 : OcrNet,
      (ocr_command st { env with ocrNet := net2 }).1.cleanupTask =
        (ocr_command st env).1.cleanupTask) := by
  have hperf : (perform_ocr st env.now env.tokNet env.ocrNet).1 =
      "OCR识别失败: " ++ m := by
    simp [perform_ocr, htok, hnet, hec, hem]
  refine ⟨?_, ?_, ?_⟩
  · simp [ocr_command, himg, hdl, htp, hperf, strTruthy_pyStrip_provider_sentinel]
  · refine ⟨tp :: (match op with
        | some p => if strTruthy p && env.pathExists p then [p] else []
        | none => []), ?_, List.mem_cons_self _ _, ?_⟩
    · simp [ocr_command, himg, hdl, htp, hte]
      cases op <;> rfl
    · intro p hop hsp hpe
      subst hop
      simp [hsp, hpe]
  · intro net2
    simp [ocr_command, himg, hdl, htp]

theorem provider_error_reply_and_cleanup_witness :
    (ocr_command ⟨"k", "s", some "tok", 100, "/tmp/astrbot_ocr"⟩
        ⟨[.image "f1"], ⟨false, some "/orig.jpg", none⟩, .exn,
         .ok ⟨some 17, some "Open api daily request limit reached", none⟩,
         fun _ => true, 50⟩).1.replies =
      ["图片中的文字内容：\n" ++ ("OCR识别失败: " ++ "Open api daily request limit reached")] ∧
    (∃ ps, (ocr_command ⟨"k", "s", some "tok", 100, "/tmp/astrbot_ocr"⟩
        ⟨[.image "f1"], ⟨false, some "/orig.jpg", none⟩, .exn,
         .ok ⟨some 17, some "Open api daily request limit reached", none⟩,
         fun _ => true, 50⟩).1.cleanupTask = some ps ∧
      "/tmp/astrbot_ocr/ocr_50.jpg" ∈ ps ∧
      ∀ p, (some "/orig.jpg" : Option String) = some p → strTruthy p = true →
        (fun _ => true : String → Bool) p = true → p ∈ ps) ∧
    (∀ net2 : OcrNet,
      (ocr_command ⟨"k", "s", some "tok", 100, "/tmp/astrbot_ocr"⟩
          ⟨[.image "f1"], ⟨false, some "/orig.jpg", none⟩, .exn, net2,
           fun _ => true, 50⟩).1.cleanupTask =
        (ocr_command ⟨"k", "s", some "tok", 100, "/tmp/astrbot_ocr"⟩
            ⟨[.image "f1"], ⟨false, some "/orig.jpg", none⟩, .exn,
             .ok ⟨some 17, some "Open api daily request limit reached", none⟩,
             fun _ => true, 50⟩).1.cleanupTask) :=
  provider_error_reply_and_cleanup ⟨"k", "s", some "tok", 100, "/tmp/astrbot_ocr"⟩
    ⟨[.image "f1"], ⟨false, some "/orig.jpg", none⟩, .exn,
     .ok ⟨some 17, some "Open api daily request limit reached", none⟩,
     fun _ => true, 50⟩
    (.image "f1") [] "/tmp/astrbot_ocr/ocr_50.jpg" (some "/orig.jpg")
    ⟨some 17, some "Open api daily request limit reached", none⟩ 17
    "Open api daily request limit reached"
    (by decide) (by decide) (by decide) (by decide) rfl rfl rfl rfl

/-- C8: when the download step yields no local path — which happens on
an internal exception, on a missing matching attachment, and when both
path-resolution routes come back empty — the handler replies
`"图片下载失败"` and terminates: recognition is never invoked, no cleanup
task is created, and the plugin state is untouched. -/
theorem download_failure_stops_pipeline (st : OCRPlugin) (env : CommandEnv)
    (img : MsgSeg) (imgs : List MsgSeg)
    (himg : env.messages.filter MsgSeg.isImage = img :: imgs) :
    ((download_image st env.messages img.fileId env.dl env.pathExists env.now).1 = "" →
      (ocr_command st env).1.replies = ["图片下载失败"] ∧
      (ocr_command st env).1.ocrInvoked = false ∧
      (ocr_command st env).1.cleanupTask = none ∧
      (ocr_command st env).2 = st) ∧
    (∀ (st2 : OCRPlugin) (msgs : List MsgSeg) (fid : String) (d : DownloadEnv)
        (pe : String → Bool) (n : Int),
      (d.exn = true ∨ (msgs.any fun m => m.isImage && m.fileId = fid) = false ∨
        (d.convertPath = none ∧ d.apiFile = none)) →
      (download_image st2 msgs fid d pe n).1 = "") := by
  constructor
  · intro hdl0
    simp [ocr_command, himg, hdl0, strTruthy]
  · intro st2 msgs fid d pe n h
    rcases h with h | h | h
    · simp [download_image, h]
    · by_cases he : d.exn = true
      · simp [download_image, he]
      · simp only [Bool.not_eq_true] at he
        simp [download_image, he, h]
    · by_cases he : d.exn = true
      · simp [download_image, he]
      · simp only [Bool.not_eq_true] at he
        by_cases hf : (msgs.any fun m => m.isImage && m.fileId = fid) = true
        · simp [download_image, he, hf, h.1, h.2]
        · simp only [Bool.not_eq_true] at hf
          simp [download_image, he, hf]

theorem download_failure_stops_pipeline_witness :
    (ocr_command ⟨"k", "s", some "tok", 100, "/tmp/astrbot_ocr"⟩
        ⟨[.image "f1"], ⟨true, none, none⟩, .exn, .readExn,
         fun _ => false, 0⟩).1.replies = ["图片下载失败"] ∧
    (ocr_command ⟨"k", "s", some "tok", 100, "/tmp/astrbot_ocr"⟩
        ⟨[.image "f1"], ⟨true, none, none⟩, .exn, .readExn,
         fun _ => false, 0⟩).1.ocrInvoked = false ∧
    (ocr_command ⟨"k", "s", some "tok", 100, "/tmp/astrbot_ocr"⟩
        ⟨[.image "f1"], ⟨true, none, none⟩, .exn, .readExn,
         fun _ => false, 0⟩).1.cleanupTask = none ∧
    (ocr_command ⟨"k", "s", some "tok", 100, "/tmp/astrbot_ocr"⟩
        ⟨[.image "f1"], ⟨true, none, none⟩, .exn, .readExn,
         fun _ => false, 0⟩).2 = ⟨"k", "s", some "tok", 100, "/tmp/astrbot_ocr"⟩ :=
  (download_failure_stops_pipeline ⟨"k", "s", some "tok", 100, "/tmp/astrbot_ocr"⟩
      ⟨[.image "f1"], ⟨true, none, none⟩, .exn, .readExn, fun _ => false, 0⟩
      (.image "f1") [] (by decide)).1 (by decide)
